import Mathlib

/-!
Verification of the annotation-extraction engine of `util/generate_docs.py`
(class `LuaDocGenerator`).

The Python code is shallowly embedded here.  Source text is modelled as
`List Char` (Python `str`); Python's `str.split('\n')` becomes `splitLines`,
`str.strip()` becomes `pyStrip`, and each regex scan of the source is
transcribed as an explicit character-level scanner with the same matching
semantics (the regexes involved are deterministic once greediness is
unfolded; this is argued case by case in the comments of each scanner).
Only the ASCII behaviour of Python's character classes (`\s`, `\w`,
`str.lower`, `str.strip`) is modelled, matching the ASCII source files the
generator is applied to.
-/

namespace GenerateDocs

/-- The single-quote character, written via its code point. -/
def squote : Char := Char.ofNat 39

/-- Python `\s` / `str.strip` whitespace class (ASCII part):
space, tab, newline, carriage return, vertical tab, form feed. -/
def isPySpace (c : Char) : Bool :=
  c = ' ' || c = '\t' || c = '\n' || c = '\r' || c = Char.ofNat 11 || c = Char.ofNat 12

/-- Python `\w` word-character class (ASCII part): letters, digits, underscore. -/
def isWordChar (c : Char) : Bool :=
  ('a' ≤ c && c ≤ 'z') || ('A' ≤ c && c ≤ 'Z') || ('0' ≤ c && c ≤ '9') || c = '_'

/-- A Python string-literal quote: `"` or `'`. -/
def isQuote (c : Char) : Bool :=
  c = '"' || c = squote

/-- Python `str.lstrip()` (ASCII whitespace). -/
def pyLstrip (l : List Char) : List Char := l.dropWhile isPySpace

/-- Python `str.strip()` (ASCII whitespace, both ends). -/
def pyStrip (l : List Char) : List Char :=
  ((l.dropWhile isPySpace).reverse.dropWhile isPySpace).reverse

/-- Python `content.split('\n')`: split on every newline, keeping empty pieces. -/
def splitLines : List Char → List (List Char)
  | [] => [[]]
  | c :: rest =>
    if c = '\n' then [] :: splitLines rest
    else
      match splitLines rest with
      | l :: ls => (c :: l) :: ls
      | [] => [[c]]

/-- Python `sub in s` (substring containment test). -/
def isSubstr (pat : List Char) : List Char → Bool
  | [] => pat.isPrefixOf []
  | c :: rest => pat.isPrefixOf (c :: rest) || isSubstr pat rest

/-- Python `' '.join(parts)` and friends. -/
def joinWith (sep : List Char) (parts : List (List Char)) : List Char :=
  List.intercalate sep parts

/-- Python `line.startswith(p)`. -/
def startsWith (p l : List Char) : Bool := p.isPrefixOf l

/-!
### Module description extraction (`parse_file`, lines 64-78)

```python
desc_lines = []
in_description = False
for line in content.split('\n'):
    if line.startswith('---'):
        cleaned = line[3:].strip()
        if cleaned.startswith('@'):
            break  # Stop at first @ tag
        if cleaned:
            desc_lines.append(cleaned)
            in_description = True
    elif in_description:
        break  # Stop at first non-comment line
module['description'] = ' '.join(desc_lines)
```
-/

/-- One loop step state: the description lines collected so far are returned;
`started` is the Python `in_description` flag. -/
def descLoop (started : Bool) : List (List Char) → List (List Char)
  | [] => []
  | line :: rest =>
    if startsWith "---".data line then
      let cleaned := pyStrip (line.drop 3)
      if startsWith "@".data cleaned then []
      else if cleaned ≠ [] then cleaned :: descLoop true rest
      else descLoop started rest
    else if started then []
    else descLoop started rest

/-- `module['description']` as computed by `parse_file` (lines 64-78). -/
def extract_description (content : List Char) : List Char :=
  joinWith " ".data (descLoop false (splitLines content))

/-- A doc-comment line whose cleaned content starts with a tag marker:
reaching such a line stops the description scan entirely. -/
def isTagDocLine (line : List Char) : Bool :=
  startsWith "---".data line && startsWith "@".data (pyStrip (line.drop 3))

/-- A doc-comment line contributing a (non-empty, non-tag) description piece. -/
def isDescContentLine (line : List Char) : Bool :=
  startsWith "---".data line &&
    !startsWith "@".data (pyStrip (line.drop 3)) &&
    pyStrip (line.drop 3) ≠ []

/-!
### Dependency extraction (`parse_file`, lines 55-62)

```python
require_pattern = r'require\s*\(\s*["\'](?:/lib/)?(\w+)["\']'
for match in re.finditer(require_pattern, content):
    dep = match.group(1)
    if dep not in module['dependencies'] and dep != filepath.stem:
        module['dependencies'].append(dep)
```

The regex is deterministic: `\s*` runs are bounded by the following literal
character, `(?:/lib/)?` can only succeed by taking the literal when present
(otherwise `\w+` would have to match at a slash), and `\w+` is a maximal
word run that must be followed directly by a quote.
-/

/-- Try to match the require pattern at the current position; on success
return the captured module name and the remaining text after the match. -/
def matchRequireAt (cs : List Char) : Option (List Char × List Char) :=
  if startsWith "require".data cs then
    let s1 := (cs.drop 7).dropWhile isPySpace
    match s1 with
    | '(' :: s2 =>
      let s3 := s2.dropWhile isPySpace
      match s3 with
      | q :: s4 =>
        if isQuote q then
          let s5 := if startsWith "/lib/".data s4 then s4.drop 5 else s4
          let w := s5.takeWhile isWordChar
          let s6 := s5.dropWhile isWordChar
          if w ≠ [] then
            match s6 with
            | q2 :: s7 => if isQuote q2 then some (w, s7) else none
            | [] => none
          else none
        else none
      | [] => none
    | _ => none
  else none

/-- All captures of the require pattern, in order of occurrence
(`re.finditer`: leftmost matches, scanning resumes after each match).
The fuel argument starts at the text length; every step consumes at least
one character of text, so it never runs out. -/
def scanRequiresAux : Nat → List Char → List (List Char)
  | 0, _ => []
  | _ + 1, [] => []
  | fuel + 1, c :: rest =>
    match matchRequireAt (c :: rest) with
    | some (w, after) => w :: scanRequiresAux fuel after
    | none => scanRequiresAux fuel rest

def scanRequires (cs : List Char) : List (List Char) :=
  scanRequiresAux cs.length cs

/-- The accumulation loop of lines 58-62: append each found name unless it is
already present or equals the module's own name (`filepath.stem`). -/
def addDeps (stem : List Char) (found : List (List Char)) : List (List Char) :=
  found.foldl
    (fun acc dep => if !acc.contains dep && dep ≠ stem then acc ++ [dep] else acc) []

/-- `module['dependencies']` as computed by `parse_file` (lines 55-62). -/
def extract_dependencies (stem content : List Char) : List (List Char) :=
  addDeps stem (scanRequires content)

/-!
### Usage-example extraction (`parse_file`, lines 80-96)

```python
example_pattern = r'---@usage\s*\n((?:---(?:[^@\n].*?)?\n)+)'
for match in re.finditer(example_pattern, content, re.MULTILINE):
    example_block = match.group(1)
    example_lines = []
    for line in example_block.split('\n'):
        if line.startswith('---'):
            cleaned = line[3:]
            if cleaned.startswith(' '):
                cleaned = cleaned[1:]
            if not cleaned.lstrip().startswith('@'):
                example_lines.append(cleaned)
    if example_lines:
        module['examples'].append('\n'.join(example_lines))
```

Determinism of the regex: each repetition unit `---(?:[^@\n].*?)?\n` consumes
exactly one newline-terminated line that starts with the marker and whose
fourth character is not an at-sign (the lazy part cannot cross the newline);
`\s*\n` must consume the whole maximal whitespace run following the anchor
and that run must end in a newline, because the following unit starts with a
dash, which is not whitespace; the greedy repetition is maximal because
nothing follows it in the pattern.
-/

/-- Match one repetition unit at the current position; on success return the
raw unit text (including its trailing newline) and the rest. -/
def matchBlockUnit (cs : List Char) : Option (List Char × List Char) :=
  if startsWith "---".data cs then
    match cs.drop 3 with
    | '\n' :: r => some ("---\n".data, r)
    | c :: t =>
      if c = '@' then none
      else
        let body := t.takeWhile (· ≠ '\n')
        match t.dropWhile (· ≠ '\n') with
        | '\n' :: r => some ("---".data ++ c :: body ++ ['\n'], r)
        | _ => none
    | [] => none
  else none

/-- Greedily take the maximal run of repetition units (the captured group). -/
def takeBlockUnits : Nat → List Char → List Char × List Char
  | 0, cs => ([], cs)
  | fuel + 1, cs =>
    match matchBlockUnit cs with
    | some (unit, rest) =>
      let (more, rest') := takeBlockUnits fuel rest
      (unit ++ more, rest')
    | none => ([], cs)

/-- Try to match the whole example pattern at the current position; on success
return the captured group (the block of doc-comment lines) and the rest. -/
def matchUsageAt (cs : List Char) : Option (List Char × List Char) :=
  if startsWith "---@usage".data cs then
    let t := cs.drop 9
    let ws := t.takeWhile isPySpace
    let rest := t.dropWhile isPySpace
    if ws ≠ [] ∧ ws.getLast? = some '\n' then
      match takeBlockUnits rest.length rest with
      | (group1, after) => if group1 ≠ [] then some (group1, after) else none
    else none
  else none

/-- `cleaned = line[3:]` followed by removal of at most one leading space
(lines 88-91). -/
def exampleClean (line : List Char) : List Char :=
  match line.drop 3 with
  | ' ' :: r => r
  | r => r

/-- The inner loop of lines 86-94 applied to `example_block.split('\n')`. -/
def processExampleLines (lines : List (List Char)) : List (List Char) :=
  lines.filterMap fun line =>
    if startsWith "---".data line then
      let cleaned := exampleClean line
      if !startsWith "@".data (pyLstrip cleaned) then some cleaned else none
    else none

/-- `module['examples']` as computed by `parse_file` (lines 80-96). -/
def scanExamplesAux : Nat → List Char → List (List Char)
  | 0, _ => []
  | _ + 1, [] => []
  | fuel + 1, c :: rest =>
    match matchUsageAt (c :: rest) with
    | some (group1, after) =>
      let ex := processExampleLines (splitLines group1)
      if ex ≠ [] then joinWith "\n".data ex :: scanExamplesAux fuel after
      else scanExamplesAux fuel after
    | none => scanExamplesAux fuel rest

def extract_examples (content : List Char) : List (List Char) :=
  scanExamplesAux content.length content

/-!
### Function documentation blocks (`parse_file`, lines 98-142)

The function pattern
`((?:[ \t]*---.*?\n)+)[ \t]*(local\s+)?function\s+([\w.:]+)\s*\((.*?)\)`
hands each match's captures to the loop body below.  The body is embedded
here as a function of those captures (`doc_block`, the truthiness of the
`local` capture, `func_name`, and the computed line number); the claims
about this loop quantify over doc blocks and captured names, so the body is
stated for arbitrary capture values.

```python
if is_local and '.' not in func_name and ':' not in func_name:
    continue
...
for line in doc_block.split('\n'):
    line = line.strip()
    if line.startswith('---'):
        line = line[3:].strip()
        if line.startswith('@param'):
            param_match = re.match(r'@param\s+(\w+\??)\s+(\S+)(?:\s+(.+))?', line)
            if param_match:
                func_info['params'].append(...)
        elif line.startswith('@return'):
            func_info['returns'] = line.replace('@return', '').strip()
        elif not line.startswith('@'):
            desc_lines.append(line)
func_info['description'] = ' '.join(desc_lines)
if func_info['description'] or func_info['params'] or func_info['returns']:
    module['functions'].append(func_info)
```
-/

structure Param where
  name : List Char
  type : List Char
  description : List Char
deriving DecidableEq, Repr

/-- `re.match(r'@param\s+(\w+\??)\s+(\S+)(?:\s+(.+))?', line)`.

Determinism: `\s+`, `\w+` and `\S+` alternate between disjoint character
classes, so each is a maximal run; the optional `?` can only be taken when
present (dropping it leaves the question mark facing `\s+`); the optional
description group takes the whole remainder after the whitespace run
following the type, except that when the remainder is pure whitespace the
lazy/greedy interplay leaves exactly the last whitespace character (which
cannot arise on stripped lines but is modelled anyway). -/
def paramMatch (line : List Char) : Option Param :=
  if startsWith "@param".data line then
    let s := line.drop 6
    if s.takeWhile isPySpace = [] then none
    else
      let s1 := s.dropWhile isPySpace
      let w := s1.takeWhile isWordChar
      let s2 := s1.dropWhile isWordChar
      if w = [] then none
      else
        let (pname, s3) :=
          match s2 with
          | '?' :: r => (w ++ ['?'], r)
          | r => (w, r)
        if s3.takeWhile isPySpace = [] then none
        else
          let s4 := s3.dropWhile isPySpace
          let ty := s4.takeWhile (fun c => !isPySpace c)
          let rest := s4.dropWhile (fun c => !isPySpace c)
          if ty = [] then none
          else
            let desc :=
              if rest = [] then []
              else
                let ws := rest.takeWhile isPySpace
                let tail := rest.dropWhile isPySpace
                if tail ≠ [] then tail
                else if 2 ≤ ws.length then [ws.getLastD ' '] else []
            some { name := pname, type := ty, description := desc }
  else none

/-- `line.replace('@return', '')`: remove every occurrence of the tag keyword,
scanning left to right without overlap (Python `str.replace`). -/
def removeRet : List Char → List Char
  | '@' :: 'r' :: 'e' :: 't' :: 'u' :: 'r' :: 'n' :: rest => removeRet rest
  | c :: rest => c :: removeRet rest
  | [] => []

structure DocAcc where
  params : List Param
  returns : List Char
  descLines : List (List Char)
deriving DecidableEq, Repr

def initDocAcc : DocAcc := { params := [], returns := [], descLines := [] }

/-- One iteration of the doc-block loop (lines 122-137). -/
def docStep (acc : DocAcc) (rawLine : List Char) : DocAcc :=
  let line := pyStrip rawLine
  if startsWith "---".data line then
    let line2 := pyStrip (line.drop 3)
    if startsWith "@param".data line2 then
      match paramMatch line2 with
      | some p => { acc with params := acc.params ++ [p] }
      | none => acc
    else if startsWith "@return".data line2 then
      { acc with returns := pyStrip (removeRet line2) }
    else if startsWith "@".data line2 then acc
    else { acc with descLines := acc.descLines ++ [line2] }
  else acc

/-- The whole doc-block loop over `doc_block.split('\n')`. -/
def processDocLines (lines : List (List Char)) : DocAcc :=
  lines.foldl docStep initDocAcc

structure FuncInfo where
  name : List Char
  params : List Param
  returns : List Char
  description : List Char
  line : Nat
deriving DecidableEq, Repr

/-- The loop body of lines 102-142 for one match of the function pattern:
`none` when the match contributes no entry to `module['functions']`. -/
def processFuncMatch (doc_block : List Char) (is_local : Bool)
    (func_name : List Char) (line_num : Nat) : Option FuncInfo :=
  if is_local && !func_name.contains '.' && !func_name.contains ':' then none
  else
    let acc := processDocLines (splitLines doc_block)
    let fi : FuncInfo :=
      { name := func_name, params := acc.params, returns := acc.returns,
        description := joinWith " ".data acc.descLines, line := line_num }
    if fi.description ≠ [] ∨ fi.params ≠ [] ∨ fi.returns ≠ [] then some fi
    else none

/-- The content a doc-block line carries once the loop has stripped and
unmarked it: `line.strip()[3:].strip()` for marker lines. -/
def cleanedOf (raw : List Char) : List Char :=
  pyStrip ((pyStrip raw).drop 3)

/-- A doc-block line on which the loop executes the `@return` assignment
(lines 134-135): a stripped marker line whose cleaned content is not an
`@param` line and starts with the return tag.  (The `@param` guard is
vacuous — no line starts with both tags — see
`retDocLine_param_incompatible`.) -/
def isRetDocLine (raw : List Char) : Bool :=
  startsWith "---".data (pyStrip raw) &&
    !startsWith "@param".data (cleanedOf raw) &&
    startsWith "@return".data (cleanedOf raw)

/-- The value the `@return` assignment stores for a given doc-block line:
`line.replace('@return', '').strip()` on the cleaned content. -/
def retPayload (raw : List Char) : List Char :=
  pyStrip (removeRet (cleanedOf raw))

/-- A doc-block line that the loop recognizes as an `@param` line but whose
payload fails the parameter regex (missing mandatory token): the loop body
does nothing on such a line. -/
def isMalformedParamLine (raw : List Char) : Bool :=
  startsWith "---".data (pyStrip raw) &&
    startsWith "@param".data (cleanedOf raw) &&
    (paramMatch (cleanedOf raw)).isNone

/-!
### README features section (`parse_program_readme`, lines 221-234)

```python
in_features = False
for line in lines:
    if '## Features' in line or '## features' in line:
        in_features = True
        continue
    if in_features:
        if line.startswith('##'):
            break
        if line.startswith('- '):
            feature = line[2:].strip()
            feature = re.sub(r'\*\*([^*]+)\*\*', r'\1', feature)
            program['features'].append(feature)
```
-/

/-- `re.sub(r'\*\*([^*]+)\*\*', r'\1', s)`: each non-overlapping occurrence of
a double-star pair enclosing a non-empty star-free run is replaced by that
run; on a failed match the scan advances one character. -/
def stripBoldAux : Nat → List Char → List Char
  | 0, cs => cs
  | _ + 1, [] => []
  | fuel + 1, c :: rest =>
    if c = '*' then
      match rest with
      | '*' :: r2 =>
        let inner := r2.takeWhile (· ≠ '*')
        let r3 := r2.dropWhile (· ≠ '*')
        if inner ≠ [] && startsWith "**".data r3 then
          inner ++ stripBoldAux fuel (r3.drop 2)
        else c :: stripBoldAux fuel rest
      | _ => c :: stripBoldAux fuel rest
    else c :: stripBoldAux fuel rest

def stripBold (cs : List Char) : List Char := stripBoldAux cs.length cs

/-- The features loop; `inF` is the Python `in_features` flag. -/
def featLoop (inF : Bool) : List (List Char) → List (List Char)
  | [] => []
  | line :: rest =>
    if isSubstr "## Features".data line || isSubstr "## features".data line then
      featLoop true rest
    else if inF then
      if startsWith "##".data line then []
      else if startsWith "- ".data line then
        stripBold (pyStrip (line.drop 2)) :: featLoop true rest
      else featLoop true rest
    else featLoop false rest

/-- `program['features']` as computed by `parse_program_readme`. -/
def extract_features (content : List Char) : List (List Char) :=
  featLoop false (splitLines content)

/-!
### Final ordering of the collections (`generate`, lines 1464-1466)

```python
self.modules.sort(key=lambda m: m['name'].lower())
self.programs.sort(key=lambda p: (p['title'] or p['name']).lower())
```

Only the fields that the sort keys read are modelled in the records.
`list.sort` is a stable comparison sort on the key; `List.insertionSort`
with the key order is also stable, so the two agree exactly.  `str.lower`
is modelled on its ASCII behaviour by `Char.toLower`, and Python's string
comparison is the lexicographic order on code points, which is the order
on `List Char`.
-/

structure ModuleRec where
  name : List Char
deriving DecidableEq, Repr

structure ProgramRec where
  name : List Char
  title : List Char
deriving DecidableEq, Repr

def lowerKey (l : List Char) : List Char := l.map Char.toLower

/-- `m['name'].lower()`. -/
def moduleKey (m : ModuleRec) : List Char := lowerKey m.name

/-- `(p['title'] or p['name']).lower()` — the empty string is falsy. -/
def programKey (p : ProgramRec) : List Char :=
  lowerKey (if p.title = [] then p.name else p.title)

def moduleLE (a b : ModuleRec) : Prop := moduleKey a ≤ moduleKey b

def programLE (a b : ProgramRec) : Prop := programKey a ≤ programKey b

instance : DecidableRel moduleLE := fun a b => by
  unfold moduleLE; infer_instance

instance : DecidableRel programLE := fun a b => by
  unfold programLE; infer_instance

instance : IsTotal ModuleRec moduleLE :=
  ⟨fun a b => le_total (moduleKey a) (moduleKey b)⟩

instance : IsTrans ModuleRec moduleLE :=
  ⟨fun _ _ _ h1 h2 => le_trans h1 h2⟩

instance : IsTotal ProgramRec programLE :=
  ⟨fun a b => le_total (programKey a) (programKey b)⟩

instance : IsTrans ProgramRec programLE :=
  ⟨fun _ _ _ h1 h2 => le_trans h1 h2⟩

/-- `self.modules.sort(key=lambda m: m['name'].lower())`. -/
def sort_modules (ms : List ModuleRec) : List ModuleRec :=
  List.insertionSort moduleLE ms

/-- `self.programs.sort(key=lambda p: (p['title'] or p['name']).lower())`. -/
def sort_programs (ps : List ProgramRec) : List ProgramRec :=
  List.insertionSort programLE ps

/-!
## Theorems
-/

/-- No line starts with both tag keywords, so the `@param` guard inside
`isRetDocLine` never excludes a line whose content starts with `@return`. -/
theorem retDocLine_param_incompatible (l : List Char)
    (h : startsWith "@param".data l = true) :
    startsWith "@return".data l = false := by
  simp only [startsWith, List.isPrefixOf_iff_prefix] at h
  obtain ⟨t, rfl⟩ := h
  rfl

/-- The loop body touches `returns` exactly on `@return` lines, storing the
replace-and-strip payload. -/
theorem docStep_returns (acc : DocAcc) (raw : List Char) :
    (docStep acc raw).returns =
      if isRetDocLine raw then retPayload raw else acc.returns := by
  simp only [docStep, isRetDocLine, retPayload, cleanedOf]
  by_cases h1 : startsWith "---".data (pyStrip raw) = true
  · by_cases h2 : startsWith "@param".data (pyStrip ((pyStrip raw).drop 3)) = true
    · cases hp : paramMatch (pyStrip ((pyStrip raw).drop 3)) <;> simp [h1, h2, hp]
    · by_cases h3 : startsWith "@return".data (pyStrip ((pyStrip raw).drop 3)) = true
      · simp [h1, h2, h3]
      · by_cases h4 : startsWith "@".data (pyStrip ((pyStrip raw).drop 3)) = true <;>
          simp [h1, h2, h3, h4]
  · simp [h1]

theorem processDocLines_returns_fold (lines : List (List Char)) :
    ∀ acc : DocAcc, (lines.foldl docStep acc).returns =
      lines.foldl (fun r l => if isRetDocLine l then retPayload l else r) acc.returns := by
  induction lines with
  | nil => intro acc; rfl
  | cons l rest ih =>
    intro acc
    simp only [List.foldl_cons]
    rw [ih, docStep_returns]

/-- A fold that overwrites its state on every selected element ends at the
value of the last selected element. -/
theorem foldl_last_wins {α β : Type} (f : α → β) (p : α → Bool) (lines : List α) :
    ∀ r0 : β, lines.foldl (fun r l => if p l then f l else r) r0 =
      match (lines.filter p).getLast? with
      | some l => f l
      | none => r0 := by
  induction lines with
  | nil => intro r0; rfl
  | cons l rest ih =>
    intro r0
    simp only [List.foldl_cons, List.filter_cons]
    by_cases hp : p l = true
    · simp only [hp, if_true, ih]
      cases hrest : (rest.filter p) with
      | nil => simp
      | cons x xs =>
        simp only [List.getLast?_cons_cons]
        cases h2 : (x :: xs).getLast? with
        | none => exact absurd (List.getLast?_eq_none_iff.mp h2) (by simp)
        | some y => rfl
    · simp only [hp, if_false, ih]
      simp [Bool.not_eq_true] at hp
      simp [hp]

/-- C1: in a function doc block containing at least two `@return` lines, the
resulting `returns` field is the payload (tag-removed, stripped text) of the
last `@return` line alone; earlier `@return` lines are overwritten. -/
theorem C1_return_last_write_wins (lines : List (List Char))
    (h : 2 ≤ (lines.filter isRetDocLine).length) :
    (processDocLines lines).returns =
      retPayload ((lines.filter isRetDocLine).getLastD []) := by
  unfold processDocLines
  rw [processDocLines_returns_fold, foldl_last_wins]
  have hne : lines.filter isRetDocLine ≠ [] := by
    intro hnil; rw [hnil] at h; simp at h
  cases hl : (lines.filter isRetDocLine).getLast? with
  | none => exact absurd (List.getLast?_eq_none_iff.mp hl) hne
  | some x =>
    simp only []
    rw [List.getLastD_eq_getLast?, hl]
    rfl

theorem C1_witness :
    2 ≤ ((splitLines "---@return a\n---@return b\n".data).filter isRetDocLine).length ∧
    (processDocLines (splitLines "---@return a\n---@return b\n".data)).returns =
      retPayload (((splitLines "---@return a\n---@return b\n".data).filter
        isRetDocLine).getLastD []) :=
  ⟨by decide, C1_return_last_write_wins _ (by decide)⟩

/-- C10: when a doc line begins with the `@return` tag, the stored value is
the line with every occurrence of the substring removed and the result
stripped (`line.replace('@return', '').strip()`), not only the leading tag
keyword: in the concrete instance the inner occurrence disappears as well,
and the result differs from stripping the leading keyword alone. -/
theorem C10_return_replace_all :
    (∀ raw acc, isRetDocLine raw = true →
      (docStep acc raw).returns = pyStrip (removeRet (cleanedOf raw))) ∧
    (docStep initDocAcc "--- @return string see @return above".data).returns =
      "string see  above".data ∧
    (docStep initDocAcc "--- @return string see @return above".data).returns ≠
      pyStrip ("string see @return above".data) := by
  refine ⟨?_, by decide, by decide⟩
  intro raw acc h
  rw [docStep_returns]
  simp [h, retPayload]

theorem C10_witness :
    (docStep initDocAcc "---@return x @return y".data).returns =
      pyStrip (removeRet (cleanedOf "---@return x @return y".data)) :=
  C10_return_replace_all.1 _ initDocAcc (by decide)

/-- A line recognized as a malformed `@param` line leaves the loop state
unchanged (lines 126-133: a failed regex match appends nothing). -/
theorem docStep_malformed (acc : DocAcc) (raw : List Char)
    (h : isMalformedParamLine raw = true) : docStep acc raw = acc := by
  simp only [isMalformedParamLine, Bool.and_eq_true] at h
  obtain ⟨⟨h1, h2⟩, h3⟩ := h
  rw [Option.isNone_iff_eq_none] at h3
  simp only [docStep, cleanedOf] at *
  simp [h1, h2, h3]

/-- `splitLines` of a newline-free line is that single line. -/
theorem splitLines_no_newline (l : List Char) (h : '\n' ∉ l) :
    splitLines l = [l] := by
  induction l with
  | nil => rfl
  | cons c t ih =>
    simp only [List.mem_cons, not_or] at h
    have hc : ¬ c = '\n' := fun hc => h.1 hc.symm
    simp only [splitLines, if_neg hc, ih h.2]

/-- `splitLines` peels one newline-free line off the front. -/
theorem splitLines_append_newline (l t : List Char) (h : '\n' ∉ l) :
    splitLines (l ++ '\n' :: t) = l :: splitLines t := by
  induction l with
  | nil => simp [splitLines]
  | cons c r ih =>
    simp only [List.mem_cons, not_or] at h
    have hc : ¬ c = '\n' := fun hc => h.1 hc.symm
    simp only [List.cons_append, splitLines, if_neg hc, List.append_eq, ih h.2]

/-- Splitting on newlines inverts joining newline-free lines with newlines
(the doc block handed over by the function pattern has this shape). -/
theorem splitLines_joinWith (ls : List (List Char)) (hne : ls ≠ [])
    (h : ∀ l ∈ ls, '\n' ∉ l) :
    splitLines (joinWith "\n".data ls) = ls := by
  induction ls with
  | nil => exact absurd rfl hne
  | cons a t ih =>
    cases t with
    | nil =>
      have : joinWith "\n".data [a] = a := by simp [joinWith, List.intercalate]
      rw [this, splitLines_no_newline a (h a (by simp))]
    | cons b t' =>
      have hstep : joinWith "\n".data (a :: b :: t') =
          a ++ '\n' :: joinWith "\n".data (b :: t') := by
        simp [joinWith, List.intercalate, List.intersperse]
      rw [hstep, splitLines_append_newline a _ (h a (by simp)),
        ih (by simp) (fun l hl => h l (by simp [hl]))]

/-- C9: a `@param` line that fails the parameter regex (missing mandatory
token) is dropped in place — the rest of the doc block parses exactly as if
the line were absent, and the function entry produced from the block
(including the retention decision) is unchanged. -/
theorem C9_malformed_param (pre post : List (List Char)) (mal : List Char)
    (is_local : Bool) (fn : List Char) (n : Nat)
    (hmal : isMalformedParamLine mal = true)
    (hnl : ∀ l ∈ pre ++ post, '\n' ∉ l) (hmn : '\n' ∉ mal)
    (hne : pre ++ post ≠ []) :
    processDocLines (pre ++ mal :: post) = processDocLines (pre ++ post) ∧
    processFuncMatch (joinWith "\n".data (pre ++ mal :: post)) is_local fn n =
      processFuncMatch (joinWith "\n".data (pre ++ post)) is_local fn n := by
  have key : processDocLines (pre ++ mal :: post) = processDocLines (pre ++ post) := by
    unfold processDocLines
    rw [List.foldl_append, List.foldl_append, List.foldl_cons,
      docStep_malformed _ _ hmal]
  refine ⟨key, ?_⟩
  have h1 : ∀ l ∈ pre ++ mal :: post, '\n' ∉ l := by
    intro l hl
    rcases List.mem_append.mp hl with h | h
    · exact hnl l (List.mem_append.mpr (Or.inl h))
    · rcases List.mem_cons.mp h with rfl | h
      · exact hmn
      · exact hnl l (List.mem_append.mpr (Or.inr h))
  unfold processFuncMatch
  rw [splitLines_joinWith _ (by simp) h1, splitLines_joinWith _ hne hnl, key]

theorem C9_witness :
    processDocLines (["--- Adds.".data] ++ "--- @param x".data :: ["--- @param a number ok".data]) =
      processDocLines (["--- Adds.".data] ++ ["--- @param a number ok".data]) ∧
    processFuncMatch (joinWith "\n".data
        (["--- Adds.".data] ++ "--- @param x".data :: ["--- @param a number ok".data]))
        false "m.f".data 4 =
      processFuncMatch (joinWith "\n".data
        (["--- Adds.".data] ++ ["--- @param a number ok".data])) false "m.f".data 4 :=
  C9_malformed_param ["--- Adds.".data] ["--- @param a number ok".data]
    "--- @param x".data false "m.f".data 4 (by decide) (by decide) (by decide)
    (by decide)

/-- C2: the per-match filter of lines 105-107: a local function whose name
carries neither separator contributes nothing, however rich its doc block;
when the name carries a separator the local modifier makes no difference to
the produced entry. -/
theorem C2_local_unqualified_dropped :
    (∀ db fn n, fn.contains '.' = false → fn.contains ':' = false →
      processFuncMatch db true fn n = none) ∧
    (∀ db fn n, (fn.contains '.' || fn.contains ':') = true →
      processFuncMatch db true fn n = processFuncMatch db false fn n) := by
  constructor
  · intro db fn n h1 h2
    unfold processFuncMatch
    rw [h1, h2]
    rfl
  · intro db fn n h
    cases hc1 : fn.contains '.' with
    | true =>
      unfold processFuncMatch
      rw [hc1]
      rfl
    | false =>
      have hc2 : fn.contains ':' = true := by
        rw [hc1] at h
        simpa using h
      unfold processFuncMatch
      rw [hc1, hc2]
      simp only [Bool.not_true, Bool.and_false, Bool.false_and]

theorem C2_witness :
    processFuncMatch "--- full docs\n--- @param a number x\n".data true "helper".data 9 = none ∧
    processFuncMatch "--- doc\n".data true "m.f".data 2 =
      processFuncMatch "--- doc\n".data false "m.f".data 2 :=
  ⟨C2_local_unqualified_dropped.1 _ _ 9 (by decide) (by decide),
    C2_local_unqualified_dropped.2 _ _ 2 (by decide)⟩

/-- Invariant of the dependency-accumulation fold: it appends a duplicate-free,
self-free selection of the scanned names, in scan order, containing every
scanned name that is neither the module's own name nor already accumulated. -/
theorem addDeps_invariant (stem : List Char) (found : List (List Char)) :
    ∀ acc : List (List Char),
      ∃ extra,
        found.foldl (fun acc dep =>
            if !acc.contains dep && dep ≠ stem then acc ++ [dep] else acc) acc =
          acc ++ extra ∧
        List.Sublist extra found ∧
        extra.Nodup ∧
        stem ∉ extra ∧
        (∀ d ∈ extra, d ∉ acc) ∧
        (∀ d ∈ found, d ≠ stem → d ∈ acc ∨ d ∈ extra) := by
  induction found with
  | nil =>
    intro acc
    exact ⟨[], by simp⟩
  | cons dep rest ih =>
    intro acc
    by_cases hcond : (!acc.contains dep && dep ≠ stem) = true
    · have hdep : dep ∉ acc ∧ dep ≠ stem := by
        simp only [Bool.and_eq_true, Bool.not_eq_true', decide_eq_true_iff] at hcond
        exact ⟨by simpa using hcond.1, hcond.2⟩
      obtain ⟨extra, heq, hsub, hnod, hstem, hnacc, hmem⟩ := ih (acc ++ [dep])
      refine ⟨dep :: extra, ?_, ?_, ?_, ?_, ?_, ?_⟩
      · simp only [List.foldl_cons, if_pos hcond, heq, List.append_assoc,
          List.singleton_append]
      · exact List.Sublist.cons₂ dep hsub
      · refine List.nodup_cons.mpr ⟨fun hm => ?_, hnod⟩
        exact hnacc dep hm (by simp)
      · simp only [List.mem_cons, not_or]
        exact ⟨fun hs => hdep.2 hs.symm, hstem⟩
      · intro d hd
        rcases List.mem_cons.mp hd with rfl | hd'
        · exact hdep.1
        · intro hacc
          exact hnacc d hd' (List.mem_append.mpr (Or.inl hacc))
      · intro d hd hds
        rcases List.mem_cons.mp hd with rfl | hd'
        · exact Or.inr (by simp)
        · rcases hmem d hd' hds with hacc | hext
          · rcases List.mem_append.mp hacc with h | h
            · exact Or.inl h
            · exact Or.inr (by simp [List.mem_singleton.mp h])
          · exact Or.inr (by simp [hext])
    · obtain ⟨extra, heq, hsub, hnod, hstem, hnacc, hmem⟩ := ih acc
      refine ⟨extra, ?_, List.sublist_cons_of_sublist dep hsub, hnod, hstem, hnacc, ?_⟩
      · simp only [List.foldl_cons, if_neg hcond, heq]
      · intro d hd hds
        rcases List.mem_cons.mp hd with rfl | hd'
        · left
          simp only [Bool.and_eq_true, Bool.not_eq_true', not_and,
            decide_eq_true_iff] at hcond
          cases hc : acc.contains d with
          | false => exact absurd hds (hcond hc)
          | true => simpa using hc
        · exact hmem d hd' hds

/-- C3: dependency extraction collects the names captured by the require
pattern (library-path qualifier stripped), excluding the module's own name
and duplicates, in first-seen order (the result is a sublist of the scan);
on the spec's concrete inputs it behaves as stated. -/
theorem C3_dependencies (stem content : List Char) :
    (extract_dependencies stem content).Nodup ∧
    stem ∉ extract_dependencies stem content ∧
    List.Sublist (extract_dependencies stem content) (scanRequires content) ∧
    (∀ d ∈ scanRequires content, d ≠ stem → d ∈ extract_dependencies stem content) ∧
    extract_dependencies "bar".data "require(\"/lib/foo\")".data = ["foo".data] ∧
    extract_dependencies "bar".data "require(\"bar\")".data = [] := by
  obtain ⟨extra, heq, hsub, hnod, hstem, _, hmem⟩ :=
    addDeps_invariant stem (scanRequires content) []
  have hval : extract_dependencies stem content = extra := by
    simpa [extract_dependencies, addDeps] using heq
  refine ⟨?_, ?_, ?_, ?_, by decide, by decide⟩
  · rw [hval]; exact hnod
  · rw [hval]; exact hstem
  · rw [hval]; exact hsub
  · intro d hd hds
    rw [hval]
    rcases hmem d hd hds with h | h
    · exact absurd h (by simp)
    · exact h

theorem C3_witness :
    "foo".data ∈ extract_dependencies "bar".data "require(\"/lib/foo\")".data :=
  (C3_dependencies "bar".data "require(\"/lib/foo\")".data).2.2.2.1 "foo".data
    (by decide) (by decide)

/-- C4 counterexample: a file whose only doc-comment description line comes
after a leading code line still yields that line as the module description —
the scan does not terminate at a code line before any description line has
been collected, contradicting the claim that such a file has an empty
description. -/
theorem C4_counterexample :
    extract_description "local x = 5\n--- hello".data = "hello".data ∧
    extract_description "local x = 5\n--- hello".data ≠ [] := by
  constructor <;> decide

/-- With no description-content line before the first tag line, the
description loop collects nothing. -/
theorem descLoop_nil_of_no_content (lines : List (List Char))
    (h : ∀ l ∈ lines.takeWhile (fun l => !isTagDocLine l),
      isDescContentLine l = false) :
    descLoop false lines = [] := by
  induction lines with
  | nil => rfl
  | cons l rest ih =>
    by_cases ht : isTagDocLine l = true
    · have h1 : startsWith "---".data l = true := by
        simp only [isTagDocLine, Bool.and_eq_true] at ht
        exact ht.1
      have h2 : startsWith "@".data (pyStrip (l.drop 3)) = true := by
        simp only [isTagDocLine, Bool.and_eq_true] at ht
        exact ht.2
      simp [descLoop, h1, h2]
    · have htw : (l :: rest).takeWhile (fun l => !isTagDocLine l) =
          l :: rest.takeWhile (fun l => !isTagDocLine l) :=
        List.takeWhile_cons_of_pos (by simp [ht])
      have hl : isDescContentLine l = false := by
        apply h
        rw [htw]
        exact List.mem_cons_self _ _
      have hrest : descLoop false rest = [] := by
        apply ih
        intro l' hl'
        apply h
        rw [htw]
        exact List.mem_cons_of_mem _ hl'
      by_cases h1 : startsWith "---".data l = true
      · have h2 : startsWith "@".data (pyStrip (l.drop 3)) = false := by
          simp only [isTagDocLine, Bool.and_eq_true, not_and] at ht
          cases hx : startsWith "@".data (pyStrip (l.drop 3)) with
          | true => exact absurd hx (ht h1)
          | false => rfl
        have h3 : pyStrip (l.drop 3) = [] := by
          simp only [isDescContentLine, h1, h2, Bool.true_and, Bool.not_false,
            Bool.and_eq_true, decide_eq_true_iff] at hl
          simpa using hl
        simp [descLoop, h1, h2, h3, hrest]
      · simp [descLoop, h1, hrest]

/-- C4 amended: the description is empty whenever no doc-comment line with
non-empty, non-tag content occurs before the first tag doc-comment line (or
end of file); non-doc-comment (code) lines do not terminate the scan until
at least one description line has been collected, so doc-comment lines after
a code line can still contribute. -/
theorem C4_description_empty_amended (content : List Char)
    (h : ∀ l ∈ (splitLines content).takeWhile (fun l => !isTagDocLine l),
      isDescContentLine l = false) :
    extract_description content = [] := by
  unfold extract_description
  rw [descLoop_nil_of_no_content _ h]
  rfl

theorem C4_witness :
    extract_description "local x = 5\n---@tag\n--- after".data = [] :=
  C4_description_empty_amended "local x = 5\n---@tag\n--- after".data (by decide)

/-- When every line of a run is a marker line whose cleaned content is not a
tag, the inner loop keeps every line, in order, applying only the clean-up
step. -/
theorem processExampleLines_all_kept (ls : List (List Char))
    (h : ∀ l ∈ ls, startsWith "---".data l = true ∧
      startsWith "@".data (pyLstrip (exampleClean l)) = false) :
    processExampleLines ls = ls.map exampleClean := by
  induction ls with
  | nil => rfl
  | cons l rest ih =>
    obtain ⟨h1, h2⟩ := h l (by simp)
    simp only [processExampleLines, List.filterMap_cons, h1, h2, Bool.not_false,
      if_true, List.map_cons]
    rw [← processExampleLines]
    rw [ih (fun l' hl' => h l' (by simp [hl']))]

/-- C5: a blank doc-comment line inside an `@usage` run survives as an empty
line at the same relative position, and one marker plus at most one space is
all that is stripped from each captured line, so deeper indentation is
retained verbatim; the concrete instance runs the full extractor. -/
theorem C5_usage_roundtrip (pre post : List (List Char))
    (h : ∀ l ∈ pre ++ post, startsWith "---".data l = true ∧
      startsWith "@".data (pyLstrip (exampleClean l)) = false) :
    processExampleLines (pre ++ "---".data :: post) =
      pre.map exampleClean ++ [] :: post.map exampleClean ∧
    (∀ s, exampleClean ("--- ".data ++ s) = s) ∧
    extract_examples "---@usage\n--- a\n---\n---   b\n".data = ["a\n\n  b".data] := by
  refine ⟨?_, fun s => rfl, by decide⟩
  have hpre : ∀ l ∈ pre, startsWith "---".data l = true ∧
      startsWith "@".data (pyLstrip (exampleClean l)) = false :=
    fun l hl => h l (List.mem_append.mpr (Or.inl hl))
  have hpost : ∀ l ∈ post, startsWith "---".data l = true ∧
      startsWith "@".data (pyLstrip (exampleClean l)) = false :=
    fun l hl => h l (List.mem_append.mpr (Or.inr hl))
  unfold processExampleLines
  rw [List.filterMap_append, List.filterMap_cons]
  rw [← processExampleLines, ← processExampleLines,
    processExampleLines_all_kept pre hpre, processExampleLines_all_kept post hpost]
  rfl

theorem C5_witness :
    processExampleLines (["--- x".data] ++ "---".data :: ["---  y".data]) =
      ["--- x".data].map exampleClean ++ [] :: ["---  y".data].map exampleClean :=
  (C5_usage_roundtrip ["--- x".data] ["---  y".data] (by decide)).1

/-- C6 counterexample: a doc-comment line with a space between the marker and
the `@usage` tag does not anchor an example block (the regex literal is
`---@usage`), while the same block anchored without the space does — the
claim that both anchor alike is false. -/
theorem C6_counterexample :
    extract_examples "--- @usage\n--- print(1)\n".data = [] ∧
    extract_examples "---@usage\n--- print(1)\n".data = ["print(1)".data] := by
  constructor <;> decide

/-- C6 amended: only a doc-comment line in which the marker is immediately
followed by `@usage` (with nothing but whitespace before the line end)
anchors an example block; a marker-space-`@usage` line never matches the
anchor, at any position. -/
theorem C6_usage_anchor_amended (rest : List Char) :
    matchUsageAt ("--- @usage".data ++ rest) = none ∧
    extract_examples "---@usage\n--- print(1)\n".data = ["print(1)".data] ∧
    extract_examples "---@usage   \n--- print(1)\n".data = ["print(1)".data] := by
  refine ⟨rfl, by decide, by decide⟩

theorem C6_witness :
    matchUsageAt ("--- @usage".data ++ "\n--- print(1)\n".data) = none :=
  (C6_usage_anchor_amended "\n--- print(1)\n".data).1

/-- Two lists sorted by a key, permutations of one another, with pairwise
distinct keys, are equal. -/
theorem sorted_key_perm_eq {α : Type} (key : α → List Char) :
    ∀ (l₁ l₂ : List α), l₁.Perm l₂ →
      l₁.Sorted (fun a b => key a ≤ key b) →
      l₂.Sorted (fun a b => key a ≤ key b) →
      (l₁.map key).Nodup → l₁ = l₂ := by
  intro l₁
  induction l₁ with
  | nil =>
    intro l₂ hp _ _ _
    exact (List.Perm.eq_nil hp.symm).symm
  | cons a t ih =>
    intro l₂ hp hs₁ hs₂ hnd
    cases l₂ with
    | nil => exact absurd (List.Perm.eq_nil hp) (by simp)
    | cons b t₂ =>
      have hab : a = b := by
        by_contra hne
        have hbmem : b ∈ t := by
          rcases List.mem_cons.mp (hp.symm.mem_iff.mp (List.mem_cons_self b t₂)) with
            h | h
          · exact absurd h.symm hne
          · exact h
        have hamem : a ∈ t₂ := by
          rcases List.mem_cons.mp (hp.mem_iff.mp (List.mem_cons_self a t)) with h | h
          · exact absurd h hne
          · exact h
        have h1 : key a ≤ key b := (List.sorted_cons.mp hs₁).1 b hbmem
        have h2 : key b ≤ key a := (List.sorted_cons.mp hs₂).1 a hamem
        have hk : key b = key a := le_antisymm h2 h1
        have : key a ∈ t.map key := by
          rw [← hk]
          exact List.mem_map_of_mem key hbmem
        exact (List.nodup_cons.mp (by simpa using hnd)).1 this
      subst hab
      have hp' : t.Perm t₂ := hp.cons_inv
      rw [ih t₂ hp' (List.sorted_cons.mp hs₁).2 (List.sorted_cons.mp hs₂).2
        (List.nodup_cons.mp (by simpa using hnd)).2]

/-- C7: after extraction the module collection is sorted by the lowercased
module name and the program collection by the lowercased display name
(title, falling back to the directory name when the title is empty); each
sort is a permutation of its input, and with pairwise distinct keys the
sorted result is independent of discovery order. -/
theorem C7_sorted_collections :
    (∀ ms : List ModuleRec,
      (sort_modules ms).Sorted moduleLE ∧ (sort_modules ms).Perm ms) ∧
    (∀ ps : List ProgramRec,
      (sort_programs ps).Sorted programLE ∧ (sort_programs ps).Perm ps) ∧
    (∀ ms₁ ms₂ : List ModuleRec, ms₁.Perm ms₂ → (ms₁.map moduleKey).Nodup →
      sort_modules ms₁ = sort_modules ms₂) ∧
    (∀ ps₁ ps₂ : List ProgramRec, ps₁.Perm ps₂ → (ps₁.map programKey).Nodup →
      sort_programs ps₁ = sort_programs ps₂) := by
  refine ⟨fun ms => ⟨List.sorted_insertionSort moduleLE ms,
      List.perm_insertionSort moduleLE ms⟩,
    fun ps => ⟨List.sorted_insertionSort programLE ps,
      List.perm_insertionSort programLE ps⟩, ?_, ?_⟩
  · intro ms₁ ms₂ hp hnd
    apply sorted_key_perm_eq moduleKey
    · exact (List.perm_insertionSort moduleLE ms₁).trans
        (hp.trans (List.perm_insertionSort moduleLE ms₂).symm)
    · exact List.sorted_insertionSort moduleLE ms₁
    · exact List.sorted_insertionSort moduleLE ms₂
    · exact ((List.perm_insertionSort moduleLE ms₁).map moduleKey).nodup_iff.mpr hnd
  · intro ps₁ ps₂ hp hnd
    apply sorted_key_perm_eq programKey
    · exact (List.perm_insertionSort programLE ps₁).trans
        (hp.trans (List.perm_insertionSort programLE ps₂).symm)
    · exact List.sorted_insertionSort programLE ps₁
    · exact List.sorted_insertionSort programLE ps₂
    · exact ((List.perm_insertionSort programLE ps₁).map programKey).nodup_iff.mpr hnd

theorem C7_witness :
    sort_modules [ModuleRec.mk "b".data, ModuleRec.mk "A".data] =
      sort_modules [ModuleRec.mk "A".data, ModuleRec.mk "b".data] :=
  C7_sorted_collections.2.2.1 [ModuleRec.mk "b".data, ModuleRec.mk "A".data]
    [ModuleRec.mk "A".data, ModuleRec.mk "b".data]
    (List.Perm.swap _ _ _) (by decide)

/-- C8 counterexample: an upper-case `## FEATURES` heading never enters the
features-collecting state (the code tests only the two exact casings
`## Features` and `## features`), so its bullet list is lost, while the
title-case heading collects it. -/
theorem C8_counterexample :
    extract_features "## FEATURES\n- **Fast** mode\n".data = [] ∧
    extract_features "## Features\n- **Fast** mode\n".data = ["Fast mode".data] := by
  constructor <;> decide

/-- A bullet line never looks like a heading line. -/
theorem startsWith_hash_bullet (b : List Char) :
    startsWith ['#', '#'] ('-' :: ' ' :: b) = false := rfl

/-- A bullet line starts with the bullet marker. -/
theorem startsWith_bullet_marker (b : List Char) :
    startsWith ['-', ' '] ('-' :: ' ' :: b) = true := by
  simp [startsWith, List.isPrefixOf]

/-- Once in the collecting state, bullet lines are stripped of the marker and
bold markup and appended in order until the next heading line. -/
theorem featLoop_collect (hdr : List Char) (tail : List (List Char)) :
    ∀ bullets : List (List Char),
      (∀ b ∈ bullets, isSubstr "## Features".data ('-' :: ' ' :: b) = false ∧
        isSubstr "## features".data ('-' :: ' ' :: b) = false) →
      isSubstr "## Features".data ('#' :: '#' :: hdr) = false →
      isSubstr "## features".data ('#' :: '#' :: hdr) = false →
      featLoop true (bullets.map (fun b => '-' :: ' ' :: b) ++
          ('#' :: '#' :: hdr) :: tail) =
        bullets.map (fun b => stripBold (pyStrip b)) := by
  intro bullets
  induction bullets with
  | nil =>
    intro _ hh1 hh2
    have hpre : startsWith ['#', '#'] ('#' :: '#' :: hdr) = true := by
      simp [startsWith, List.isPrefixOf]
    simp only [List.map_nil, List.nil_append, featLoop]
    rw [hh1, hh2]
    simp [hpre]
  | cons b bs ih =>
    intro hb hh1 hh2
    obtain ⟨hb1, hb2⟩ := hb b (by simp)
    simp only [List.map_cons, List.cons_append, featLoop]
    rw [hb1, hb2]
    simp only [Bool.or_false, Bool.false_eq_true, if_false,
      startsWith_hash_bullet, startsWith_bullet_marker, if_true,
      List.drop_succ_cons, List.drop_zero, List.append_eq]
    rw [ih (fun b' hb' => hb b' (by simp [hb'])) hh1 hh2]

/-- C8 amended: only a line containing `## Features` or `## features` in
those exact casings enters the features-collecting state (no line without
either substring ever produces a feature), after which bullet lines are
stripped of the bullet marker and bold markup and appended in order until
the next heading. -/
theorem C8_features_amended :
    (∀ lines : List (List Char),
      (∀ l ∈ lines, isSubstr "## Features".data l = false ∧
        isSubstr "## features".data l = false) →
      featLoop false lines = []) ∧
    (∀ (trig hdr : List Char) (bullets : List (List Char)) (tail : List (List Char)),
      (isSubstr "## Features".data trig || isSubstr "## features".data trig) = true →
      (∀ b ∈ bullets, isSubstr "## Features".data ('-' :: ' ' :: b) = false ∧
        isSubstr "## features".data ('-' :: ' ' :: b) = false) →
      isSubstr "## Features".data ('#' :: '#' :: hdr) = false →
      isSubstr "## features".data ('#' :: '#' :: hdr) = false →
      featLoop false (trig :: (bullets.map (fun b => '-' :: ' ' :: b) ++
          ('#' :: '#' :: hdr) :: tail)) =
        bullets.map (fun b => stripBold (pyStrip b))) := by
  constructor
  · intro lines h
    induction lines with
    | nil => rfl
    | cons l rest ih =>
      obtain ⟨h1, h2⟩ := h l (by simp)
      simp only [featLoop]
      rw [h1, h2]
      simp only [Bool.or_false, Bool.false_eq_true, if_false]
      exact ih fun l' hl' => h l' (by simp [hl'])
  · intro trig hdr bullets tail htrig hb hh1 hh2
    simp only [featLoop]
    rw [if_pos htrig]
    exact featLoop_collect hdr tail bullets hb hh1 hh2

theorem C8_witness :
    featLoop false ("## Features".data ::
        (["**x** y".data].map (fun b => '-' :: ' ' :: b) ++
          ('#' :: '#' :: " Next".data) :: [])) =
      ["**x** y".data].map (fun b => stripBold (pyStrip b)) :=
  C8_features_amended.2 "## Features".data " Next".data ["**x** y".data] []
    (by decide) (by decide) (by decide) (by decide)

end GenerateDocs
